import Mathlib

/-!
# Verification of the AQI scoring pipeline of `la-fire-monitoring`

Shallow embedding of the pure scoring logic of the repository:

* `pm25_to_aqi` and `nowcast_pm25` from `src/la_fire_monitoring/app_streamlit.py`
  (revised 2024 EPA breakpoint table), together with `aqi_category` / `aqi_color`
  and the per-sensor AQI fallback of `fetch_openaq_pm25_hours_bbox`;
* `pm25_to_aqi` (legacy EPA table, if/elif chain returning a pair of AQI and
  category), `analyze_fire_impact` and the forecast-trend classification of
  `generate_summary_report` from `src/app/app_streamlit.py`.

Real numbers are modelled as exact rationals; Python's `round` (banker's
rounding, round half to even) is modelled exactly on rationals by `pyRound`.
`None` becomes `Option.none`; `math.nan` has no exact-rational counterpart and
is subsumed by `none` in the model (both are discarded by the same filter).
The geopy great-circle distance is a third-party collaborator and is abstracted
as an explicit distance-function parameter.
-/

namespace LAFire

/-- Python's built-in `round`: round half to even, modelled on exact rationals. -/
def pyRound (q : ℚ) : ℤ :=
  if q - ⌊q⌋ < 1/2 then ⌊q⌋
  else if 1/2 < q - ⌊q⌋ then ⌊q⌋ + 1
  else if ⌊q⌋ % 2 = 0 then ⌊q⌋ else ⌊q⌋ + 1

/-- An AQI breakpoint band, the `(Clow, Chigh, Ilow, Ihigh)` tuples of the source. -/
structure Band where
  cl : ℚ
  ch : ℚ
  il : ℤ
  ih : ℤ
deriving DecidableEq, Repr

/-- The linear interpolation of `src/la_fire_monitoring/app_streamlit.py` line 88:
`round(((c - Clow) / (Chigh - Clow)) * (Ihigh - Ilow) + Ilow)`. -/
def interp (b : Band) (c : ℚ) : ℤ :=
  pyRound ((c - b.cl) / (b.ch - b.cl) * ((b.ih : ℚ) - (b.il : ℚ)) + (b.il : ℚ))

/-- The `bps` table of `src/la_fire_monitoring/app_streamlit.py` (2024 EPA update). -/
def bps : List Band :=
  [⟨0.0, 9.0, 0, 50⟩, ⟨9.1, 35.4, 51, 100⟩, ⟨35.5, 55.4, 101, 150⟩,
   ⟨55.5, 125.4, 151, 200⟩, ⟨125.5, 225.4, 201, 300⟩, ⟨225.5, 325.4, 301, 500⟩]

/-- The `for ... in bps` loop of `pm25_to_aqi`: the first band containing `c` wins. -/
def findBand (c : ℚ) : List Band → Option ℤ
  | [] => none
  | b :: rest => if b.cl ≤ c ∧ c ≤ b.ch then some (interp b c) else findBand c rest

/-- `pm25_to_aqi` from `src/la_fire_monitoring/app_streamlit.py` (lines 74-90):
`None` input propagates as `None`; a concentration matching no band falls through
the loop and returns the cap 500. -/
def pm25_to_aqi : Option ℚ → Option ℤ
  | none => none
  | some c => some ((findBand c bps).getD 500)

/-- `aqi_category` from `src/la_fire_monitoring/app_streamlit.py` (lines 92-99). -/
def aqi_category : Option ℤ → String
  | none => "Unknown"
  | some aqi =>
    if aqi ≤ 50 then "Good"
    else if aqi ≤ 100 then "Moderate"
    else if aqi ≤ 150 then "Unhealthy for Sensitive Groups"
    else if aqi ≤ 200 then "Unhealthy"
    else if aqi ≤ 300 then "Very Unhealthy"
    else "Hazardous"

/-- `aqi_color` from `src/la_fire_monitoring/app_streamlit.py` (lines 101-108). -/
def aqi_color : Option ℤ → String
  | none => "#999999"
  | some aqi =>
    if aqi ≤ 50 then "#00e400"
    else if aqi ≤ 100 then "#ffff00"
    else if aqi ≤ 150 then "#ff7e00"
    else if aqi ≤ 200 then "#ff0000"
    else if aqi ≤ 300 then "#8f3f97"
    else "#7e0023"

/-- The category chain of the legacy `pm25_to_aqi` (`src/app/app_streamlit.py`
lines 27-32). -/
def legacyCategory (aqi : ℤ) : String :=
  if aqi ≤ 50 then "Good"
  else if aqi ≤ 100 then "Moderate"
  else if aqi ≤ 150 then "Unhealthy for Sensitive Groups"
  else if aqi ≤ 200 then "Unhealthy"
  else if aqi ≤ 300 then "Very Unhealthy"
  else "Hazardous"

/-- `pm25_to_aqi` from `src/app/app_streamlit.py` (lines 17-33, legacy EPA table).
`None` returns the pair `(0, "Unknown")`; a value matching none of the five
if/elif conditions (gaps between bands, negatives, above 250.4) takes the
`else` branch and gets AQI 301. -/
def pm25_to_aqi_legacy : Option ℚ → ℤ × String
  | none => (0, "Unknown")
  | some c =>
    let aqi : ℤ :=
      if 0 ≤ c ∧ c ≤ 12.0 then pyRound (((50 : ℚ) - 0) / (12.0 - 0) * (c - 0) + 0)
      else if 12.1 ≤ c ∧ c ≤ 35.4 then
        pyRound (((100 : ℚ) - 51) / (35.4 - 12.1) * (c - 12.1) + 51)
      else if 35.5 ≤ c ∧ c ≤ 55.4 then
        pyRound (((150 : ℚ) - 101) / (55.4 - 35.5) * (c - 35.5) + 101)
      else if 55.5 ≤ c ∧ c ≤ 150.4 then
        pyRound (((200 : ℚ) - 151) / (150.4 - 55.5) * (c - 55.5) + 151)
      else if 150.5 ≤ c ∧ c ≤ 250.4 then
        pyRound (((300 : ℚ) - 201) / (250.4 - 150.5) * (c - 150.5) + 201)
      else 301
    (aqi, legacyCategory aqi)

/-- The legacy if/elif conditions of `src/app/app_streamlit.py` lines 20-24,
collected as a band table (same constants, same order). -/
def legacy_bps : List Band :=
  [⟨0, 12.0, 0, 50⟩, ⟨12.1, 35.4, 51, 100⟩, ⟨35.5, 55.4, 101, 150⟩,
   ⟨55.5, 150.4, 151, 200⟩, ⟨150.5, 250.4, 201, 300⟩]

/-- `c` lies inside some band of the table `l`. -/
def inSomeBand (l : List Band) (c : ℚ) : Prop :=
  ∃ b ∈ l, b.cl ≤ c ∧ c ≤ b.ch

instance (l : List Band) (c : ℚ) : Decidable (inSomeBand l c) :=
  List.decidableBEx _ l

/-- Python's `max` over a nonempty list (`max(vals)`); 0 on `[]`, never used there. -/
def listMax : List ℚ → ℚ
  | [] => 0
  | [x] => x
  | x :: y :: rest => max x (listMax (y :: rest))

/-- Python's `min` over a nonempty list (`min(vals)`); 0 on `[]`, never used there. -/
def listMin : List ℚ → ℚ
  | [] => 0
  | [x] => x
  | x :: y :: rest => min x (listMin (y :: rest))

/-- `np.sum(weights * vals_rev)` where `weights = [w ** i for i in range(len(vals_rev))]`,
starting at exponent `i`. -/
def wsum (w : ℚ) : List ℚ → ℕ → ℚ
  | [], _ => 0
  | x :: xs, i => w ^ i * x + wsum w xs (i + 1)

/-- `np.sum(weights)` for the same weight list, starting at exponent `i`. -/
def wtot (w : ℚ) : List ℚ → ℕ → ℚ
  | [], _ => 0
  | _ :: xs, i => w ^ i + wtot w xs (i + 1)

/-- `nowcast_pm25` from `src/la_fire_monitoring/app_streamlit.py` (lines 55-68).
Missing readings are `none` (the `math.isnan` filter has no separate
exact-rational counterpart); fewer than 2 valid readings give `none`;
`cmax <= 0` gives `0.0`; otherwise the recency-weighted average of the
reversed (most-recent-first) valid readings with weights `w ^ i`. -/
def nowcast_pm25 (last_12_hours : List (Option ℚ)) : Option ℚ :=
  let vals := last_12_hours.filterMap id
  if vals.length < 2 then none
  else
    let cmax := listMax vals
    let cmin := listMin vals
    if cmax ≤ 0 then some 0
    else
      let w := max (1/2) (cmin / cmax)
      some (wsum w vals.reverse 0 / wtot w vals.reverse 0)

/-- `values[-1] if values else None` from `src/la_fire_monitoring/app_streamlit.py`
line 196 (each raw entry is itself possibly missing). -/
def lastOrNone (values : List (Option ℚ)) : Option ℚ :=
  match values.getLast? with
  | some v => v
  | none => none

/-- The per-sensor AQI computation of `fetch_openaq_pm25_hours_bbox` line 196:
`aqi = pm25_to_aqi(nc if nc is not None else (values[-1] if values else None))`. -/
def sensor_aqi (values : List (Option ℚ)) : Option ℤ :=
  let nc := nowcast_pm25 values
  pm25_to_aqi (match nc with
               | some x => some x
               | none => lastOrNone values)

/-- A NASA FIRMS hotspot row as read by `analyze_fire_impact`
(only coordinates and confidence are consumed; `frp` is carried along). -/
structure FireRecord where
  latitude : ℚ
  longitude : ℚ
  confidence : ℚ
  frp : ℚ
deriving DecidableEq, Repr

/-- `analyze_fire_impact` from `src/app/app_streamlit.py` (lines 35-41).
The geopy `great_circle(...).kilometers` call is third-party and is abstracted
as the parameter `dist`. -/
def analyze_fire_impact (dist : ℚ × ℚ → ℚ × ℚ → ℚ)
    (city_coords : Option (ℚ × ℚ)) (df_fires : List FireRecord) :
    List (FireRecord × ℚ) :=
  match city_coords with
  | none => []
  | some cc =>
    if df_fires = [] then []
    else
      let impactful := df_fires.filter (fun r => 80 < r.confidence)
      if impactful = [] then []
      else
        let withDist := impactful.map (fun r => (r, dist cc (r.latitude, r.longitude)))
        ((withDist.filter (fun p => p.2 ≤ 500)).mergeSort
          (fun p q => decide (p.2 ≤ q.2))).take 10

/-- The fire-impact contract in the spec's words: keep the records with
confidence strictly above 80 and distance at most 500 km, sort ascending by
distance, return the nearest 10; an unknown reference coordinate gives `[]`. -/
def fire_impact_spec (dist : ℚ × ℚ → ℚ × ℚ → ℚ)
    (city_coords : Option (ℚ × ℚ)) (df_fires : List FireRecord) :
    List (FireRecord × ℚ) :=
  match city_coords with
  | none => []
  | some cc =>
    (((df_fires.map (fun r => (r, dist cc (r.latitude, r.longitude)))).filter
        (fun p => decide (80 < p.1.confidence) && decide (p.2 ≤ 500))).mergeSort
      (fun p q => decide (p.2 ≤ q.2))).take 10

/-- The forecast-trend classification of `generate_summary_report`
(`src/app/app_streamlit.py` lines 59-64): compare the last forecast-day
average against the first; `none` when the forecast frame is empty. -/
def forecast_trend (avgs : List ℚ) : Option String :=
  match avgs.head?, avgs.getLast? with
  | some current_avg, some future_avg =>
    some (if current_avg * 1.1 < future_avg then "expected to worsen"
          else if future_avg < current_avg * 0.9 then "expected to improve"
          else "expected to remain stable")
  | _, _ => none

end LAFire

namespace LAFire

/-! ## Arithmetic facts about Python's rounding -/

lemma floor_le_pyRound (q : ℚ) : ⌊q⌋ ≤ pyRound q := by
  unfold pyRound
  split_ifs <;> omega

lemma pyRound_le_floor_add_one (q : ℚ) : pyRound q ≤ ⌊q⌋ + 1 := by
  unfold pyRound
  split_ifs <;> omega

lemma le_pyRound {n : ℤ} {q : ℚ} (h : (n : ℚ) ≤ q) : n ≤ pyRound q :=
  le_trans (Int.le_floor.mpr h) (floor_le_pyRound q)

lemma pyRound_le {n : ℤ} {q : ℚ} (h : q ≤ (n : ℚ)) : pyRound q ≤ n := by
  have hfl : ⌊q⌋ ≤ n := by
    have := Int.floor_le_floor h
    simpa using this
  unfold pyRound
  split_ifs with h1 h2 h3
  · exact hfl
  · have hq : (⌊q⌋ : ℚ) + 1/2 < q := by linarith
    have hlt : (⌊q⌋ : ℚ) < (n : ℚ) := by linarith
    have : ⌊q⌋ < n := by exact_mod_cast hlt
    omega
  · exact hfl
  · have hq : (⌊q⌋ : ℚ) + 1/2 ≤ q := by linarith
    have hlt : (⌊q⌋ : ℚ) < (n : ℚ) := by linarith
    have : ⌊q⌋ < n := by exact_mod_cast hlt
    omega

lemma pyRound_mono {q₁ q₂ : ℚ} (h : q₁ ≤ q₂) : pyRound q₁ ≤ pyRound q₂ := by
  rcases lt_or_le ⌊q₁⌋ ⌊q₂⌋ with hf | hf
  · have h1 := pyRound_le_floor_add_one q₁
    have h2 := floor_le_pyRound q₂
    omega
  · have heq : ⌊q₁⌋ = ⌊q₂⌋ := le_antisymm (Int.floor_le_floor h) hf
    have hfr : q₁ - ⌊q₁⌋ ≤ q₂ - ⌊q₂⌋ := by
      rw [heq] at *
      linarith
    unfold pyRound
    rw [heq]
    split_ifs <;> first | omega | linarith

/-! ## Band interpolation: bounds and monotonicity -/

lemma interp_lb {b : Band} {c : ℚ} (hcl : b.cl ≤ c) (hb : b.cl < b.ch)
    (hi : b.il ≤ b.ih) : b.il ≤ interp b c := by
  apply le_pyRound
  have h0 : (0 : ℚ) ≤ (c - b.cl) / (b.ch - b.cl) :=
    div_nonneg (by linarith) (by linarith)
  have hΔ : (0 : ℚ) ≤ (b.ih : ℚ) - (b.il : ℚ) := by
    have : (b.il : ℚ) ≤ (b.ih : ℚ) := by exact_mod_cast hi
    linarith
  nlinarith [mul_nonneg h0 hΔ]

lemma interp_ub {b : Band} {c : ℚ} (hch : c ≤ b.ch) (hb : b.cl < b.ch)
    (hi : b.il ≤ b.ih) : interp b c ≤ b.ih := by
  apply pyRound_le
  have hθ : (c - b.cl) / (b.ch - b.cl) ≤ 1 := by
    rw [div_le_one (by linarith)]
    linarith
  have hΔ : (0 : ℚ) ≤ (b.ih : ℚ) - (b.il : ℚ) := by
    have : (b.il : ℚ) ≤ (b.ih : ℚ) := by exact_mod_cast hi
    linarith
  have := mul_le_of_le_one_left hΔ hθ
  unfold interp at *
  nlinarith

lemma interp_mono {b : Band} {c₁ c₂ : ℚ} (h : c₁ ≤ c₂) (hb : b.cl < b.ch)
    (hi : b.il ≤ b.ih) : interp b c₁ ≤ interp b c₂ := by
  apply pyRound_mono
  have hΔ : (0 : ℚ) ≤ (b.ih : ℚ) - (b.il : ℚ) := by
    have : (b.il : ℚ) ≤ (b.ih : ℚ) := by exact_mod_cast hi
    linarith
  have hθ : (c₁ - b.cl) / (b.ch - b.cl) ≤ (c₂ - b.cl) / (b.ch - b.cl) := by
    gcongr <;> linarith
  have := mul_le_mul_of_nonneg_right hθ hΔ
  linarith

/-! ## Breakpoint lookup: totality on bands, cap off bands, monotonicity -/

lemma findBand_eq_none {l : List Band} {c : ℚ} (h : ¬ inSomeBand l c) :
    findBand c l = none := by
  induction l with
  | nil => rfl
  | cons b rest ih =>
    rw [findBand]
    rw [if_neg]
    · apply ih
      intro ⟨b', hb', hc'⟩
      exact h ⟨b', List.mem_cons_of_mem _ hb', hc'⟩
    · intro hc
      exact h ⟨b, List.mem_cons_self _ _, hc⟩

lemma findBand_some {l : List Band} {c : ℚ} (h : inSomeBand l c) :
    ∃ v, findBand c l = some v := by
  induction l with
  | nil => exact absurd h (by rintro ⟨b, hb, -⟩; exact List.not_mem_nil b hb)
  | cons b rest ih =>
    rw [findBand]
    by_cases hc : b.cl ≤ c ∧ c ≤ b.ch
    · exact ⟨interp b c, if_pos hc⟩
    · rw [if_neg hc]
      apply ih
      obtain ⟨b', hb', hc'⟩ := h
      rcases List.mem_cons.mp hb' with rfl | hmem
      · exact absurd hc' hc
      · exact ⟨b', hmem, hc'⟩

lemma findBand_mem_bound {l : List Band} {c : ℚ} {v : ℤ}
    (h : findBand c l = some v) :
    ∃ b ∈ l, (b.cl ≤ c ∧ c ≤ b.ch) ∧ v = interp b c := by
  induction l with
  | nil => simp [findBand] at h
  | cons b rest ih =>
    rw [findBand] at h
    by_cases hc : b.cl ≤ c ∧ c ≤ b.ch
    · rw [if_pos hc] at h
      exact ⟨b, List.mem_cons_self _ _, hc, (Option.some.injEq _ _ ▸ h).symm⟩
    · rw [if_neg hc] at h
      obtain ⟨b', hb', hc', hv⟩ := ih h
      exact ⟨b', List.mem_cons_of_mem _ hb', hc', hv⟩

/-- Monotonicity of the breakpoint lookup over any well-formed table: bands
ordered and non-overlapping, with non-decreasing index ranges. -/
lemma findBand_mono {l : List Band}
    (hpair : l.Pairwise (fun a b => a.ch < b.cl ∧ a.ih ≤ b.il))
    (hbands : ∀ b ∈ l, b.cl < b.ch ∧ b.il ≤ b.ih)
    {c₁ c₂ : ℚ} (h12 : c₁ ≤ c₂) {v₁ v₂ : ℤ}
    (h1 : findBand c₁ l = some v₁) (h2 : findBand c₂ l = some v₂) :
    v₁ ≤ v₂ := by
  induction l with
  | nil => simp [findBand] at h1
  | cons b rest ih =>
    rw [findBand] at h1 h2
    rw [List.pairwise_cons] at hpair
    obtain ⟨hhead, htail⟩ := hpair
    obtain ⟨hbcl, hbil⟩ := hbands b (List.mem_cons_self _ _)
    by_cases hc1 : b.cl ≤ c₁ ∧ c₁ ≤ b.ch
    · rw [if_pos hc1] at h1
      injection h1 with h1
      subst h1
      by_cases hc2 : b.cl ≤ c₂ ∧ c₂ ≤ b.ch
      · rw [if_pos hc2] at h2
        injection h2 with h2
        subst h2
        exact interp_mono h12 hbcl hbil
      · rw [if_neg hc2] at h2
        obtain ⟨b', hb', hc', hv⟩ := findBand_mem_bound h2
        obtain ⟨hb'cl, hb'il⟩ := hbands b' (List.mem_cons_of_mem _ hb')
        have hle : b.ih ≤ b'.il := (hhead b' hb').2
        have h1b : interp b c₁ ≤ b.ih := interp_ub hc1.2 hbcl hbil
        have h2b : b'.il ≤ v₂ := hv ▸ interp_lb hc'.1 hb'cl hb'il
        omega
    · rw [if_neg hc1] at h1
      by_cases hc2 : b.cl ≤ c₂ ∧ c₂ ≤ b.ch
      · exfalso
        obtain ⟨b', hb', hc', -⟩ := findBand_mem_bound h1
        have := (hhead b' hb').1
        have := hc'.1
        have := hc2.2
        linarith
      · rw [if_neg hc2] at h2
        exact ih htail (fun b' hb' => hbands b' (List.mem_cons_of_mem _ hb')) h1 h2

/-- The legacy if/elif chain computes the same lookup as `findBand` over its
band table, with default 301 for the final `else` (the conditions of the chain
and of the table are the same constants in the same order). -/
lemma legacy_eq_findBand (c : ℚ) :
    (pm25_to_aqi_legacy (some c)).1 = (findBand c legacy_bps).getD 301 := by
  simp only [pm25_to_aqi_legacy, legacy_bps, findBand, interp, Option.getD]
  split_ifs <;>
    first
      | (congr 1; push_cast; ring)
      | rfl

lemma legacy_bps_pairwise :
    legacy_bps.Pairwise (fun a b => a.ch < b.cl ∧ a.ih ≤ b.il) := by
  norm_num [legacy_bps, List.pairwise_cons]

lemma legacy_bps_bands : ∀ b ∈ legacy_bps, b.cl < b.ch ∧ b.il ≤ b.ih := by
  norm_num [legacy_bps]

lemma bps_pairwise : bps.Pairwise (fun a b => a.ch < b.cl ∧ a.ih ≤ b.il) := by
  norm_num [bps, List.pairwise_cons]

lemma bps_bands : ∀ b ∈ bps, b.cl < b.ch ∧ b.il ≤ b.ih := by
  norm_num [bps]

/-! ## NowCast helper lemmas -/

lemma listMax_replicate (v : ℚ) : ∀ n : ℕ, 1 ≤ n → listMax (List.replicate n v) = v := by
  intro n
  induction n with
  | zero => omega
  | succ m ih =>
    intro _
    cases m with
    | zero => simp [listMax]
    | succ k =>
      rw [List.replicate_succ, List.replicate_succ, listMax, ← List.replicate_succ,
        ih (by omega), max_self]

lemma listMin_replicate (v : ℚ) : ∀ n : ℕ, 1 ≤ n → listMin (List.replicate n v) = v := by
  intro n
  induction n with
  | zero => omega
  | succ m ih =>
    intro _
    cases m with
    | zero => simp [listMin]
    | succ k =>
      rw [List.replicate_succ, List.replicate_succ, listMin, ← List.replicate_succ,
        ih (by omega), min_self]

lemma wsum_one (l : List ℚ) : ∀ i : ℕ, wsum 1 l i = l.sum := by
  induction l with
  | nil => intro i; simp [wsum]
  | cons x xs ih => intro i; simp [wsum, ih, one_pow]

lemma wtot_one (l : List ℚ) : ∀ i : ℕ, wtot 1 l i = l.length := by
  induction l with
  | nil => intro i; simp [wtot]
  | cons x xs ih =>
    intro i
    simp [wtot, ih, one_pow]
    ring

lemma wsum_eq_sum (w : ℚ) (l : List ℚ) : ∀ i : ℕ,
    wsum w l i = ∑ k ∈ Finset.range l.length, w ^ (i + k) * l.getD k 0 := by
  induction l with
  | nil => intro i; simp [wsum]
  | cons x xs ih =>
    intro i
    rw [wsum, ih (i + 1), List.length_cons, Finset.sum_range_succ']
    simp only [List.getD_cons_succ, List.getD_cons_zero, add_zero]
    rw [add_comm]
    congr 1
    apply Finset.sum_congr rfl
    intro k _
    congr 2
    omega

lemma wtot_eq_sum (w : ℚ) (l : List ℚ) : ∀ i : ℕ,
    wtot w l i = ∑ k ∈ Finset.range l.length, w ^ (i + k) := by
  induction l with
  | nil => intro i; simp [wtot]
  | cons x xs ih =>
    intro i
    rw [wtot, ih (i + 1), List.length_cons, Finset.sum_range_succ']
    simp only [add_zero]
    rw [add_comm]
    congr 1
    apply Finset.sum_congr rfl
    intro k _
    congr 1
    omega

end LAFire

namespace LAFire

/-! ## Fire-impact helper lemmas -/

lemma analyze_eq_spec (dist : ℚ × ℚ → ℚ × ℚ → ℚ) (cc : Option (ℚ × ℚ))
    (fires : List FireRecord) :
    analyze_fire_impact dist cc fires = fire_impact_spec dist cc fires := by
  cases cc with
  | none => rfl
  | some c =>
    simp only [analyze_fire_impact, fire_impact_spec]
    by_cases hf : fires = []
    · subst hf
      simp
    · rw [if_neg hf]
      by_cases hi : fires.filter (fun r => decide (80 < r.confidence)) = []
      · rw [if_pos hi, List.filter_map]
        rw [List.filter_eq_nil] at hi
        have hnil : fires.filter ((fun p : FireRecord × ℚ =>
            decide (80 < p.1.confidence) && decide (p.2 ≤ 500)) ∘
              (fun r => (r, dist c (r.latitude, r.longitude)))) = [] := by
          rw [List.filter_eq_nil]
          intro a ha
          simp only [Function.comp, Bool.and_eq_true, not_and]
          intro hconf
          exact absurd hconf (by simpa using hi a ha)
        rw [hnil]
        simp
      · rw [if_neg hi, List.filter_map, List.filter_filter, List.filter_map]
        suffices hfe : fires.filter (fun a =>
            ((fun p : FireRecord × ℚ => decide (p.2 ≤ 500)) ∘
              (fun r => (r, dist c (r.latitude, r.longitude)))) a &&
                decide (80 < a.confidence)) =
            fires.filter ((fun p : FireRecord × ℚ =>
              decide (80 < p.1.confidence) && decide (p.2 ≤ 500)) ∘
                (fun r => (r, dist c (r.latitude, r.longitude)))) by
          rw [hfe]
        apply List.filter_congr
        intro r _
        simp only [Function.comp]
        rw [Bool.and_comm]

lemma spec_length_le (dist : ℚ × ℚ → ℚ × ℚ → ℚ) (cc : Option (ℚ × ℚ))
    (fires : List FireRecord) : (fire_impact_spec dist cc fires).length ≤ 10 := by
  cases cc with
  | none => simp [fire_impact_spec]
  | some c =>
    simp only [fire_impact_spec, List.length_take]
    exact min_le_left _ _

lemma spec_sorted (dist : ℚ × ℚ → ℚ × ℚ → ℚ) (cc : Option (ℚ × ℚ))
    (fires : List FireRecord) :
    List.Sorted (fun p q : FireRecord × ℚ => p.2 ≤ q.2)
      (fire_impact_spec dist cc fires) := by
  cases cc with
  | none => simp [fire_impact_spec]
  | some c =>
    have hms := @List.sorted_mergeSort (FireRecord × ℚ)
      (fun p q : FireRecord × ℚ => decide (p.2 ≤ q.2))
      (by intro a b c hab hbc
          simp only [decide_eq_true_eq] at *
          exact le_trans hab hbc)
      (by intro a b
          simp only [Bool.or_eq_true, decide_eq_true_eq]
          exact le_total _ _)
      ((fires.map (fun r => (r, dist c (r.latitude, r.longitude)))).filter
        (fun p => decide (80 < p.1.confidence) && decide (p.2 ≤ 500)))
    have hp := hms.imp (fun {a b} hab => of_decide_eq_true hab)
    exact hp.sublist (List.take_sublist _ _)

lemma spec_mem (dist : ℚ × ℚ → ℚ × ℚ → ℚ) (cc : Option (ℚ × ℚ))
    (fires : List FireRecord) :
    ∀ p ∈ fire_impact_spec dist cc fires, 80 < p.1.confidence ∧ p.2 ≤ 500 := by
  intro p hp
  cases cc with
  | none => simp [fire_impact_spec] at hp
  | some c =>
    simp only [fire_impact_spec] at hp
    have h1 := List.mem_of_mem_take hp
    have h2 := List.mem_mergeSort.mp h1
    have h3 := (List.mem_filter.mp h2).2
    simpa using h3

/-! ## Claim theorems -/

/-- C1 (counterexample): the claim says the conversion of a missing reading is
never a numeric default and in particular never zero, but the legacy
`pm25_to_aqi` of `src/app/app_streamlit.py` returns the pair `(0, "Unknown")`
for `None`: its AQI component is the number 0. -/
theorem legacy_none_is_numeric_zero :
    (pm25_to_aqi_legacy none).1 = 0 ∧ (pm25_to_aqi_legacy none).2 = "Unknown" :=
  ⟨rfl, rfl⟩

/-- C1 (amended): the revised variant maps a missing reading to `None`, and
category/color lookup of that unknown AQI give `"Unknown"` and the neutral
gray, without crashing; the legacy variant, however, returns AQI 0 paired with
category `"Unknown"` — a numeric zero default in the AQI component. -/
theorem unknown_input_handling :
    pm25_to_aqi none = none ∧
    aqi_category (pm25_to_aqi none) = "Unknown" ∧
    aqi_color (pm25_to_aqi none) = "#999999" ∧
    pm25_to_aqi_legacy none = (0, "Unknown") :=
  ⟨rfl, rfl, rfl, rfl⟩

/-- C2 (counterexample): the conversion is not monotone through the gaps
between bands: 12.05 lies in the legacy gap (12.0, 12.1) and maps to 301 while
12.1 maps to 51; likewise 9.05 lies in the revised gap (9.0, 9.1) and maps to
500 while 9.1 maps to 51. -/
theorem gap_monotonicity_cx :
    (12.05 : ℚ) ≤ 12.1 ∧
    ¬ ((pm25_to_aqi_legacy (some 12.05)).1 ≤ (pm25_to_aqi_legacy (some 12.1)).1) ∧
    (9.05 : ℚ) ≤ 9.1 ∧
    ¬ ((pm25_to_aqi (some 9.05)).getD 0 ≤ (pm25_to_aqi (some 9.1)).getD 0) := by
  refine ⟨by norm_num, ?_, by norm_num, ?_⟩
  · have h1 : (pm25_to_aqi_legacy (some 12.05)).1 = 301 := by
      norm_num [pm25_to_aqi_legacy]
    have h2 : (pm25_to_aqi_legacy (some 12.1)).1 = 51 := by
      norm_num [pm25_to_aqi_legacy, pyRound]
    rw [h1, h2]
    norm_num
  · have h1 : pm25_to_aqi (some 9.05) = some 500 := by
      norm_num [pm25_to_aqi, findBand, bps]
    have h2 : pm25_to_aqi (some 9.1) = some 51 := by
      norm_num [pm25_to_aqi, findBand, bps, interp, pyRound]
    rw [h1, h2]
    norm_num

/-- C2 (amended): in both variants the concentration-to-AQI conversion is
monotonically non-decreasing over all concentrations lying within some
breakpoint band (within bands and across band boundaries); concentrations in
the gaps between bands jump to the top cap and are excluded. -/
theorem aqi_monotone_on_bands (c₁ c₂ : ℚ) (h12 : c₁ ≤ c₂) :
    (inSomeBand legacy_bps c₁ → inSomeBand legacy_bps c₂ →
      (pm25_to_aqi_legacy (some c₁)).1 ≤ (pm25_to_aqi_legacy (some c₂)).1) ∧
    (inSomeBand bps c₁ → inSomeBand bps c₂ →
      (pm25_to_aqi (some c₁)).getD 0 ≤ (pm25_to_aqi (some c₂)).getD 0) := by
  constructor
  · intro hb1 hb2
    obtain ⟨v₁, hv₁⟩ := findBand_some hb1
    obtain ⟨v₂, hv₂⟩ := findBand_some hb2
    rw [legacy_eq_findBand c₁, legacy_eq_findBand c₂, hv₁, hv₂]
    exact findBand_mono legacy_bps_pairwise legacy_bps_bands h12 hv₁ hv₂
  · intro hb1 hb2
    obtain ⟨v₁, hv₁⟩ := findBand_some hb1
    obtain ⟨v₂, hv₂⟩ := findBand_some hb2
    simp only [pm25_to_aqi, hv₁, hv₂, Option.getD_some]
    exact findBand_mono bps_pairwise bps_bands h12 hv₁ hv₂

/-- C2 (witness): monotonicity instantiated at the in-band pair 1 ≤ 10. -/
theorem aqi_monotone_on_bands_witness :
    (1 : ℚ) ≤ 10 ∧
    (pm25_to_aqi_legacy (some 1)).1 ≤ (pm25_to_aqi_legacy (some 10)).1 ∧
    (pm25_to_aqi (some 1)).getD 0 ≤ (pm25_to_aqi (some 10)).getD 0 := by
  have h := aqi_monotone_on_bands 1 10 (by norm_num)
  have hb1 : inSomeBand legacy_bps 1 :=
    ⟨⟨0, 12.0, 0, 50⟩, by simp [legacy_bps], by norm_num, by norm_num⟩
  have hb2 : inSomeBand legacy_bps 10 :=
    ⟨⟨0, 12.0, 0, 50⟩, by simp [legacy_bps], by norm_num, by norm_num⟩
  have hb3 : inSomeBand bps 1 :=
    ⟨⟨0.0, 9.0, 0, 50⟩, by simp [bps], by norm_num, by norm_num⟩
  have hb4 : inSomeBand bps 10 :=
    ⟨⟨9.1, 35.4, 51, 100⟩, by simp [bps], by norm_num, by norm_num⟩
  exact ⟨by norm_num, h.1 hb1 hb2, h.2 hb3 hb4⟩

/-- C3 (counterexample): a concentration strictly inside a gap between two
bands (12.05 for the legacy table, 9.05 for the revised one) does not raise an
"invalid input" error; both conversions return a plain number (the cap). -/
theorem gap_returns_number_cx :
    (12.0 : ℚ) < 12.05 ∧ (12.05 : ℚ) < 12.1 ∧
    pm25_to_aqi_legacy (some 12.05) = (301, "Hazardous") ∧
    (9.0 : ℚ) < 9.05 ∧ (9.05 : ℚ) < 9.1 ∧
    pm25_to_aqi (some 9.05) = some 500 := by
  refine ⟨by norm_num, by norm_num, ?_, by norm_num, by norm_num, ?_⟩
  · norm_num [pm25_to_aqi_legacy, legacyCategory]
  · norm_num [pm25_to_aqi, findBand, bps]

/-- C3 (amended): a non-missing concentration lying in no breakpoint band
(gap values included) is silently mapped to the top cap — 301 in the legacy
variant and 500 in the revised one — and no error of any kind is raised. -/
theorem out_of_band_maps_to_cap (c₁ c₂ : ℚ)
    (h₁ : ¬ inSomeBand legacy_bps c₁) (h₂ : ¬ inSomeBand bps c₂) :
    (pm25_to_aqi_legacy (some c₁)).1 = 301 ∧ pm25_to_aqi (some c₂) = some 500 := by
  constructor
  · rw [legacy_eq_findBand, findBand_eq_none h₁]
    rfl
  · simp [pm25_to_aqi, findBand_eq_none h₂]

/-- C3 (witness): the cap behaviour instantiated at the gap values 12.05, 9.05. -/
theorem out_of_band_maps_to_cap_witness :
    ¬ inSomeBand legacy_bps 12.05 ∧ ¬ inSomeBand bps 9.05 ∧
    (pm25_to_aqi_legacy (some 12.05)).1 = 301 ∧
    pm25_to_aqi (some 9.05) = some 500 := by
  have h₁ : ¬ inSomeBand legacy_bps 12.05 := by
    rintro ⟨b, hb, hcl, hch⟩
    fin_cases hb <;> norm_num at hcl hch
  have h₂ : ¬ inSomeBand bps 9.05 := by
    rintro ⟨b, hb, hcl, hch⟩
    fin_cases hb <;> norm_num at hcl hch
  exact ⟨h₁, h₂, (out_of_band_maps_to_cap 12.05 9.05 h₁ h₂).1,
    (out_of_band_maps_to_cap 12.05 9.05 h₁ h₂).2⟩

/-- C4 (counterexample): with a single valid reading the NowCast is undefined
(`none`), yet the pipeline of `fetch_openaq_pm25_hours_bbox` does substitute a
numeric concentration: it falls back to the latest raw reading and produces the
numeric AQI 62 rather than an unknown. -/
theorem nowcast_fallback_cx :
    nowcast_pm25 [some 15] = none ∧ sensor_aqi [some 15] = some 62 := by
  constructor
  · norm_num [nowcast_pm25, List.filterMap]
  · norm_num [sensor_aqi, nowcast_pm25, List.filterMap, lastOrNone, pm25_to_aqi,
      findBand, bps, interp, pyRound]

/-- C4 (amended): with fewer than 2 valid readings the NowCast is undefined
(`none`); downstream, the pipeline then substitutes the latest raw reading when
one exists, and the AQI is unknown (`none`) only when there is no latest raw
reading. -/
theorem nowcast_short_history (values : List (Option ℚ))
    (h : (values.filterMap id).length < 2) :
    nowcast_pm25 values = none ∧
    sensor_aqi values = pm25_to_aqi (lastOrNone values) ∧
    (sensor_aqi values = none ↔ lastOrNone values = none) := by
  have hnc : nowcast_pm25 values = none := by
    simp only [nowcast_pm25]
    rw [if_pos h]
  refine ⟨hnc, ?_, ?_⟩
  · simp only [sensor_aqi, hnc]
  · simp only [sensor_aqi, hnc]
    cases hl : lastOrNone values with
    | none => simp [pm25_to_aqi]
    | some c => simp [pm25_to_aqi]

/-- C4 (witness): the short-history behaviour instantiated at `[some 15]`. -/
theorem nowcast_short_history_witness :
    (([some 15] : List (Option ℚ)).filterMap id).length < 2 ∧
    nowcast_pm25 [some 15] = none ∧
    (sensor_aqi [some 15] = none ↔ lastOrNone [some 15] = none) :=
  ⟨by simp [List.filterMap], (nowcast_short_history [some 15] (by simp [List.filterMap])).1,
    (nowcast_short_history [some 15] (by simp [List.filterMap])).2.2⟩

/-- C5 (confirmed): with at least 2 valid readings, `nowcast_pm25` returns
exactly 0 when `cmax ≤ 0` and otherwise the weighted average with weight
`w ^ i = (max (1/2) (cmin/cmax)) ^ i` on the i-th most-recent reading, the
weighted sum divided by the weight sum; on the oldest-first history `[10, 20]`
the result is 50/3, which is 16.67 up to 0.01. -/
theorem nowcast_formula_correct (h : List (Option ℚ))
    (hlen : 2 ≤ (h.filterMap id).length) :
    nowcast_pm25 h = some (
      if listMax (h.filterMap id) ≤ 0 then 0
      else
        (∑ i ∈ Finset.range (h.filterMap id).length,
            (max (1/2) (listMin (h.filterMap id) / listMax (h.filterMap id))) ^ i *
              (h.filterMap id).reverse.getD i 0) /
        (∑ i ∈ Finset.range (h.filterMap id).length,
            (max (1/2) (listMin (h.filterMap id) / listMax (h.filterMap id))) ^ i)) ∧
    nowcast_pm25 [some 10, some 20] = some (50 / 3) ∧
    |(50 / 3 : ℚ) - 1667 / 100| ≤ 1 / 100 := by
  refine ⟨?_, ?_, by rw [abs_le]; constructor <;> norm_num⟩
  · simp only [nowcast_pm25]
    rw [if_neg (by omega)]
    by_cases hmax : listMax (h.filterMap id) ≤ 0
    · rw [if_pos hmax, if_pos hmax]
    · rw [if_neg hmax, if_neg hmax]
      congr 1
      rw [wsum_eq_sum, wtot_eq_sum, List.length_reverse]
      simp [zero_add]
  · norm_num [nowcast_pm25, List.filterMap, listMax, listMin, wsum, wtot]

/-- C5 (witness): the NowCast formula instantiated at the history `[10, 20]`. -/
theorem nowcast_formula_correct_witness :
    2 ≤ (([some 10, some 20] : List (Option ℚ)).filterMap id).length ∧
    nowcast_pm25 [some 10, some 20] = some (50 / 3) :=
  ⟨by simp [List.filterMap],
    (nowcast_formula_correct [some 10, some 20] (by simp [List.filterMap])).2.1⟩

end LAFire

namespace LAFire

set_option maxHeartbeats 3200000 in
/-- C6 (confirmed): every band of both tables is boundary-exact
(`AQI(Clow) = Ilow`, `AQI(Chigh) = Ihigh`); the legacy table gives
AQI(12.0) = 50 and AQI(12.1) = 51, the revised table gives AQI(9.0) = 50 and
AQI(9.1) = 51, and on the common input 12.0 the two tables disagree
(50 versus 56), so they are not interchangeable. -/
theorem boundary_exactness :
    (∀ b ∈ legacy_bps, (pm25_to_aqi_legacy (some b.cl)).1 = b.il ∧
        (pm25_to_aqi_legacy (some b.ch)).1 = b.ih) ∧
    (∀ b ∈ bps, pm25_to_aqi (some b.cl) = some b.il ∧
        pm25_to_aqi (some b.ch) = some b.ih) ∧
    (pm25_to_aqi_legacy (some 12.0)).1 = 50 ∧
    (pm25_to_aqi_legacy (some 12.1)).1 = 51 ∧
    pm25_to_aqi (some 9.0) = some 50 ∧
    pm25_to_aqi (some 9.1) = some 51 ∧
    pm25_to_aqi (some 12.0) = some 56 ∧
    (pm25_to_aqi_legacy (some 12.0)).1 ≠ (pm25_to_aqi (some 12.0)).getD 0 := by
  refine ⟨?_, ?_, ?_, ?_, ?_, ?_, ?_, ?_⟩
  · norm_num [legacy_bps, pm25_to_aqi_legacy, pyRound]
  · norm_num [bps, pm25_to_aqi, findBand, interp, pyRound]
  · norm_num [pm25_to_aqi_legacy, pyRound]
  · norm_num [pm25_to_aqi_legacy, pyRound]
  · norm_num [pm25_to_aqi, findBand, bps, interp, pyRound]
  · norm_num [pm25_to_aqi, findBand, bps, interp, pyRound]
  · norm_num [pm25_to_aqi, findBand, bps, interp, pyRound]
  · have h1 : (pm25_to_aqi_legacy (some 12.0)).1 = 50 := by
      norm_num [pm25_to_aqi_legacy, pyRound]
    have h2 : pm25_to_aqi (some 12.0) = some 56 := by
      norm_num [pm25_to_aqi, findBand, bps, interp, pyRound]
    rw [h1, h2]
    norm_num

/-- C6 (witness): boundary exactness instantiated at the first legacy band. -/
theorem boundary_exactness_witness :
    (pm25_to_aqi_legacy (some (Band.mk 0 12.0 0 50).cl)).1 = (Band.mk 0 12.0 0 50).il ∧
    (pm25_to_aqi_legacy (some (Band.mk 0 12.0 0 50).ch)).1 = (Band.mk 0 12.0 0 50).ih :=
  boundary_exactness.1 ⟨0, 12.0, 0, 50⟩ (by simp [legacy_bps])

/-- C7 (confirmed): `analyze_fire_impact` equals the spec contract — the
records with confidence strictly above 80 and distance at most 500, sorted
ascending by distance and truncated to the nearest 10 — and in particular its
result is at most 10 long, sorted by distance, contains only records passing
both filters, and is empty for an unknown reference coordinate or an empty
record collection, always without raising. -/
theorem fire_impact_correct (dist : ℚ × ℚ → ℚ × ℚ → ℚ) (cc : Option (ℚ × ℚ))
    (fires : List FireRecord) :
    analyze_fire_impact dist cc fires = fire_impact_spec dist cc fires ∧
    (analyze_fire_impact dist cc fires).length ≤ 10 ∧
    List.Sorted (fun p q : FireRecord × ℚ => p.2 ≤ q.2)
      (analyze_fire_impact dist cc fires) ∧
    (∀ p ∈ analyze_fire_impact dist cc fires, 80 < p.1.confidence ∧ p.2 ≤ 500) ∧
    (cc = none → analyze_fire_impact dist cc fires = []) ∧
    (fires = [] → analyze_fire_impact dist cc fires = []) := by
  have he := analyze_eq_spec dist cc fires
  refine ⟨he, ?_, ?_, ?_, ?_, ?_⟩
  · rw [he]
    exact spec_length_le dist cc fires
  · rw [he]
    exact spec_sorted dist cc fires
  · rw [he]
    exact spec_mem dist cc fires
  · rintro rfl
    rfl
  · rintro rfl
    cases cc with
    | none => rfl
    | some c => simp [analyze_fire_impact]

/-- C7 (witness): the contract instantiated at one hotspot with confidence 81
at distance 10 from a known reference coordinate. -/
theorem fire_impact_correct_witness :
    analyze_fire_impact (fun _ _ => 10) (some (0, 0)) [⟨1, 1, 81, 5⟩] =
      fire_impact_spec (fun _ _ => 10) (some (0, 0)) [⟨1, 1, 81, 5⟩] ∧
    (∀ p ∈ analyze_fire_impact (fun _ _ => 10) (some (0, 0))
        ([⟨1, 1, 81, 5⟩] : List FireRecord), 80 < p.1.confidence ∧ p.2 ≤ 500) :=
  ⟨(fire_impact_correct _ _ _).1, (fire_impact_correct _ _ _).2.2.2.1⟩

/-- C8 (confirmed): for a forecast whose first daily average `f` is
non-negative (concentrations are non-negative) and whose last is `l`, the
classification is "worsen" iff `l > f * 1.1`, "improve" iff `l < f * 0.9`, and
"stable" otherwise. -/
theorem trend_classification (avgs : List ℚ) (f l : ℚ) (hf : 0 ≤ f)
    (hhead : avgs.head? = some f) (hlast : avgs.getLast? = some l) :
    (forecast_trend avgs = some "expected to worsen" ↔ f * 1.1 < l) ∧
    (forecast_trend avgs = some "expected to improve" ↔ l < f * 0.9) ∧
    (forecast_trend avgs = some "expected to remain stable" ↔
      (l ≤ f * 1.1 ∧ f * 0.9 ≤ l)) := by
  simp only [forecast_trend, hhead, hlast]
  have h91 : f * 0.9 ≤ f * 1.1 := by nlinarith
  split_ifs with h1 h2
  · refine ⟨⟨fun _ => h1, fun _ => rfl⟩, ?_, ?_⟩
    · constructor
      · intro hx
        exact absurd hx (by simp)
      · intro hx
        linarith
    · constructor
      · intro hx
        exact absurd hx (by simp)
      · intro hx
        linarith [hx.1]
  · refine ⟨?_, ⟨fun _ => h2, fun _ => rfl⟩, ?_⟩
    · constructor
      · intro hx
        exact absurd hx (by simp)
      · intro hx
        exact absurd hx h1
    · constructor
      · intro hx
        exact absurd hx (by simp)
      · intro hx
        linarith [hx.2]
  · push_neg at h1 h2
    refine ⟨?_, ?_, ⟨fun _ => ⟨h1, h2⟩, fun _ => rfl⟩⟩
    · constructor
      · intro hx
        exact absurd hx (by simp)
      · intro hx
        linarith
    · constructor
      · intro hx
        exact absurd hx (by simp)
      · intro hx
        linarith

/-- C8 (witness): the three classifications of the spec, first=100 with
last 115, 85 and 95. -/
theorem trend_classification_witness :
    forecast_trend [100, 115] = some "expected to worsen" ∧
    forecast_trend [100, 85] = some "expected to improve" ∧
    forecast_trend [100, 95] = some "expected to remain stable" :=
  ⟨(trend_classification [100, 115] 100 115 (by norm_num) rfl rfl).1.mpr (by norm_num),
   (trend_classification [100, 85] 100 85 (by norm_num) rfl rfl).2.1.mpr (by norm_num),
   (trend_classification [100, 95] 100 95 (by norm_num) rfl rfl).2.2.mpr
     (by constructor <;> norm_num)⟩

/-- C9 (confirmed): a history whose valid readings are N ≥ 2 copies of the
same non-negative value `v` has NowCast exactly `v` (via weight 1 when
`v > 0`, and via the `cmax ≤ 0` branch when `v = 0`). -/
theorem nowcast_constant_history (h : List (Option ℚ)) (n : ℕ) (v : ℚ)
    (hv : 0 ≤ v) (hn : 2 ≤ n) (hrep : h.filterMap id = List.replicate n v) :
    nowcast_pm25 h = some v := by
  simp only [nowcast_pm25, hrep]
  rw [List.length_replicate]
  rw [if_neg (by omega)]
  rw [listMax_replicate v n (by omega), listMin_replicate v n (by omega)]
  rcases hv.eq_or_lt with rfl | hv'
  · rw [if_pos le_rfl]
  · rw [if_neg (not_le.mpr hv')]
    have hw : max (1/2 : ℚ) (v / v) = 1 := by
      rw [div_self (ne_of_gt hv')]
      norm_num
    rw [hw, List.reverse_replicate, wsum_one, wtot_one, List.sum_replicate,
      List.length_replicate, nsmul_eq_mul]
    congr 1
    have hn0 : (n : ℚ) ≠ 0 := by positivity
    field_simp

/-- C9 (witness): the constant history `[7, 7]` has NowCast exactly 7. -/
theorem nowcast_constant_history_witness :
    0 ≤ (7 : ℚ) ∧ 2 ≤ 2 ∧
    ([some 7, some 7] : List (Option ℚ)).filterMap id = List.replicate 2 7 ∧
    nowcast_pm25 [some 7, some 7] = some 7 :=
  ⟨by norm_num, le_rfl, by simp [List.filterMap, List.replicate],
    nowcast_constant_history [some 7, some 7] 2 7 (by norm_num) le_rfl
      (by simp [List.filterMap, List.replicate])⟩

/-- C10 (confirmed): every strictly negative concentration matches no band in
either variant, so the legacy conversion returns the pair (301, "Hazardous")
and the revised conversion returns the cap 500. -/
theorem negative_concentration_caps (c : ℚ) (hc : c < 0) :
    pm25_to_aqi_legacy (some c) = (301, "Hazardous") ∧
    pm25_to_aqi (some c) = some 500 := by
  have hleg : ¬ inSomeBand legacy_bps c := by
    rintro ⟨b, hb, hcl, hch⟩
    fin_cases hb <;> norm_num at hcl <;> linarith
  have hrev : ¬ inSomeBand bps c := by
    rintro ⟨b, hb, hcl, hch⟩
    fin_cases hb <;> norm_num at hcl <;> linarith
  constructor
  · have h301 : (pm25_to_aqi_legacy (some c)).1 = 301 := by
      rw [legacy_eq_findBand, findBand_eq_none hleg]
      rfl
    have hpair : pm25_to_aqi_legacy (some c) =
        ((pm25_to_aqi_legacy (some c)).1,
          legacyCategory ((pm25_to_aqi_legacy (some c)).1)) := rfl
    rw [hpair, h301]
    norm_num [legacyCategory]
  · simp [pm25_to_aqi, findBand_eq_none hrev]

/-- C10 (witness): the negative-input cap behaviour instantiated at -1. -/
theorem negative_concentration_caps_witness :
    (-1 : ℚ) < 0 ∧
    pm25_to_aqi_legacy (some (-1)) = (301, "Hazardous") ∧
    pm25_to_aqi (some (-1)) = some 500 :=
  ⟨by norm_num, (negative_concentration_caps (-1) (by norm_num)).1,
    (negative_concentration_caps (-1) (by norm_num)).2⟩

end LAFire
